import Mathlib

/-!
Verification of the f1-scrapping extraction-and-persistence pipeline.

The definitions below are a shallow embedding of the Python source:
text is modelled as `List Char`, timestamps as `Nat`, SQLite tables as
lists of row structures together with the next AUTOINCREMENT id, and
fallible operations return `Option`.  Each section names the source
function it embeds.
-/

/-! ### Text normalizer (src/src/scrapers/__init__.py, BaseScraper) -/

/-- ASCII whitespace as recognised by Python `str.split` / `str.strip`
(space, tab, newline, carriage return, vertical tab, form feed). -/
def isWs (c : Char) : Bool :=
  c = ' ' || c = '\t' || c = '\n' || c = '\r' || c = Char.ofNat 11 || c = Char.ofNat 12

/-- Value of a digit string, as Python `int` parses a string of digit
characters (the meaning of `int(digits)` on the digit concatenation). -/
def natOfDigits (l : List Char) : Nat :=
  l.foldl (fun acc c => acc * 10 + (c.toNat - 48)) 0

/-- Embedding of `BaseScraper.parse_number`: `if not text: return None`,
keep only digit characters, `int(digits) if digits else None`. -/
def parse_number (text : List Char) : Option Nat :=
  if text = [] then none
  else
    let digits := text.filter Char.isDigit
    if digits = [] then none else some (natOfDigits digits)

/-- Python `str.split()` tokenizer: splits on whitespace runs and drops
empty tokens.  `acc` accumulates the current token in reverse. -/
def splitAux : List Char → List Char → List (List Char)
  | [], acc => if acc = [] then [] else [acc.reverse]
  | c :: rest, acc =>
    if isWs c then
      (if acc = [] then splitAux rest [] else acc.reverse :: splitAux rest [])
    else splitAux rest (c :: acc)

/-- Python `text.split()` with no separator argument. -/
def pySplitWs (l : List Char) : List (List Char) := splitAux l []

/-- Python `" ".join(tokens)`. -/
def joinSpace : List (List Char) → List Char
  | [] => []
  | [t] => t
  | t :: ts => t ++ ' ' :: joinSpace ts

/-- Python `str.replace` specialised to a two-character pattern `a,b`
replaced by the single character `rep`, scanning left to right without
overlap (the shape of `replace("\\n", " ")` in `clean_text`). -/
def replace2 (a b rep : Char) : List Char → List Char
  | [] => []
  | [c] => [c]
  | c :: d :: rest =>
    if c = a ∧ d = b then rep :: replace2 a b rep rest
    else c :: replace2 a b rep (d :: rest)

/-- Python `str.strip()` of trailing whitespace, via reversal. -/
def dropTrail (l : List Char) : List Char := (l.reverse.dropWhile isWs).reverse

/-- Python `str.strip()`: remove leading and trailing whitespace. -/
def pyStrip (l : List Char) : List Char := dropTrail (l.dropWhile isWs)

/-- Embedding of `BaseScraper.clean_text`: empty guard, whitespace-run
collapse via split and join, replacement of the literal two-character
sequences backslash-n and backslash-t by a space, final strip. -/
def clean_text (text : List Char) : List Char :=
  if text = [] then []
  else
    let cleaned := joinSpace (pySplitWs text)
    let c1 := replace2 '\\' 'n' ' ' cleaned
    let c2 := replace2 '\\' 't' ' ' c1
    pyStrip c2

/-- Holds when the string contains no two consecutive space characters. -/
def noTwoSpaces : List Char → Bool
  | c :: d :: rest => !(c = ' ' && d = ' ') && noTwoSpaces (d :: rest)
  | _ => true

/-! ### parse_position (src/src/utils/__init__.py) -/

/-- Drop the longest non-digit leading segment (the search part of
`re.search` with a digit-run pattern). -/
def dropToDigit (l : List Char) : List Char := l.dropWhile (fun c => !c.isDigit)

/-- First maximal digit run of the string, the match of
`re.search(r'(\d+)', s)`. -/
def firstDigitRun (l : List Char) : Option (List Char) :=
  let r := (dropToDigit l).takeWhile Char.isDigit
  if r = [] then none else some r

/-- Embedding of `parse_position`: empty guard, strip, first digit run,
range check 1..30. -/
def parse_position (text : List Char) : Option Nat :=
  if text = [] then none
  else
    match firstDigitRun (pyStrip text) with
    | none => none
    | some run =>
      let p := natOfDigits run
      if 1 ≤ p ∧ p ≤ 30 then some p else none

/-! ### Lemmas about the normalizer -/

theorem ws_not_digit {c : Char} (h : isWs c = true) : c.isDigit = false := by
  simp only [isWs, Bool.or_eq_true, decide_eq_true_eq] at h
  rcases h with ((((h | h) | h) | h) | h) | h <;> subst h <;> rfl

theorem firstDigitRun_cons_not_digit {c : Char} {l : List Char}
    (h : c.isDigit = false) : firstDigitRun (c :: l) = firstDigitRun l := by
  simp [firstDigitRun, dropToDigit, List.dropWhile_cons, h]

theorem firstDigitRun_dropLeadWs (l : List Char) :
    firstDigitRun (l.dropWhile isWs) = firstDigitRun l := by
  induction l with
  | nil => rfl
  | cons c l ih =>
    by_cases hw : isWs c = true
    · rw [List.dropWhile_cons_of_pos hw, ih,
        firstDigitRun_cons_not_digit (ws_not_digit hw)]
    · rw [List.dropWhile_cons_of_neg (by simp [hw])]

theorem takeWhile_digit_ws_suffix {s : List Char} (hs : ∀ c ∈ s, isWs c = true)
    (m : List Char) : (m ++ s).takeWhile Char.isDigit = m.takeWhile Char.isDigit := by
  induction m with
  | nil =>
    cases s with
    | nil => rfl
    | cons x s' =>
      simp only [List.nil_append, List.takeWhile_nil]
      rw [List.takeWhile_cons_of_neg]
      simp [ws_not_digit (hs x (by simp))]
  | cons c m ih =>
    by_cases hd : c.isDigit = true
    · simp only [List.cons_append, List.takeWhile_cons_of_pos hd, ih]
    · simp only [List.cons_append]
      rw [List.takeWhile_cons_of_neg (by simp [hd]),
        List.takeWhile_cons_of_neg (by simp [hd])]

theorem firstDigitRun_ws_suffix {s : List Char} (hs : ∀ c ∈ s, isWs c = true)
    (m : List Char) : firstDigitRun (m ++ s) = firstDigitRun m := by
  induction m with
  | nil =>
    simp only [List.nil_append]
    have hdrop : s.dropWhile (fun c => !c.isDigit) = [] := by
      rw [List.dropWhile_eq_nil_iff]
      intro x hx
      simp [ws_not_digit (hs x hx)]
    simp [firstDigitRun, dropToDigit, hdrop]
  | cons c m ih =>
    by_cases hd : c.isDigit = true
    · simp only [firstDigitRun, dropToDigit, List.cons_append]
      rw [List.dropWhile_cons_of_neg (by simp [hd]),
        List.dropWhile_cons_of_neg (by simp [hd])]
      rw [List.takeWhile_cons_of_pos hd, List.takeWhile_cons_of_pos hd,
        takeWhile_digit_ws_suffix hs m]
    · have hc : c.isDigit = false := by simpa using hd
      rw [List.cons_append, firstDigitRun_cons_not_digit hc,
        firstDigitRun_cons_not_digit hc, ih]

theorem firstDigitRun_dropTrail (m : List Char) :
    firstDigitRun (dropTrail m) = firstDigitRun m := by
  have hdecomp : m = dropTrail m ++ (m.reverse.takeWhile isWs).reverse := by
    have h1 : m.reverse.takeWhile isWs ++ m.reverse.dropWhile isWs = m.reverse :=
      List.takeWhile_append_dropWhile isWs m.reverse
    calc m = m.reverse.reverse := (List.reverse_reverse m).symm
    _ = (m.reverse.takeWhile isWs ++ m.reverse.dropWhile isWs).reverse := by rw [h1]
    _ = dropTrail m ++ (m.reverse.takeWhile isWs).reverse := by
        rw [List.reverse_append]; rfl
  have hws : ∀ c ∈ (m.reverse.takeWhile isWs).reverse, isWs c = true := by
    intro c hc
    rw [List.mem_reverse] at hc
    exact List.mem_takeWhile_imp hc
  conv_rhs => rw [hdecomp]
  rw [firstDigitRun_ws_suffix hws]

theorem firstDigitRun_pyStrip (l : List Char) :
    firstDigitRun (pyStrip l) = firstDigitRun l := by
  rw [pyStrip, firstDigitRun_dropTrail, firstDigitRun_dropLeadWs]

/-! ### Claim C7: parse_number -/

/-- C7: for every input containing no digit character (including the
empty input) `parse_number` returns `none`, never zero; when digit
characters are present the result is the integer parsed from the
concatenation of all digit characters of the input. -/
theorem parse_number_spec (text : List Char) :
    ((∀ c ∈ text, c.isDigit = false) → parse_number text = none) ∧
    (text.filter Char.isDigit ≠ [] →
      parse_number text = some (natOfDigits (text.filter Char.isDigit))) := by
  constructor
  · intro h
    unfold parse_number
    by_cases ht : text = []
    · simp [ht]
    · have hfil : text.filter Char.isDigit = [] := by
        rw [List.filter_eq_nil_iff]
        intro a ha
        simp [h a ha]
      simp [ht, hfil]
  · intro h
    unfold parse_number
    have ht : text ≠ [] := by
      intro he
      exact h (by simp [he])
    simp [ht, h]

/-- Witness for C7 at concrete inputs. -/
theorem parse_number_spec_witness :
    parse_number (("ab-?").toList) = none ∧
    parse_number (("a1x25").toList) = some 125 := by
  constructor
  · exact (parse_number_spec (("ab-?").toList)).1 (by decide)
  · exact (parse_number_spec (("a1x25").toList)).2 (by decide)

/-! ### Claim C10: parse_position -/

/-- C10: `parse_position` returns `none` for empty input, input with no
digit run, and any extracted value outside 1..30; when the first digit
run parses to a value between 1 and 30 inclusive it returns that value. -/
theorem parse_position_spec (text : List Char) :
    (parse_position text = none ↔
      (firstDigitRun text = none ∨
        ∃ run, firstDigitRun text = some run ∧
          (natOfDigits run = 0 ∨ 30 < natOfDigits run))) ∧
    (∀ run, firstDigitRun text = some run → 1 ≤ natOfDigits run →
      natOfDigits run ≤ 30 → parse_position text = some (natOfDigits run)) := by
  have hempty : text = [] → firstDigitRun text = none := by
    intro h; subst h; rfl
  constructor
  · unfold parse_position
    by_cases ht : text = []
    · subst ht
      simp only [if_true]
      exact ⟨fun _ => Or.inl rfl, fun _ => trivial⟩
    · rw [firstDigitRun_pyStrip]
      simp only [ht, if_false]
      cases hfdr : firstDigitRun text with
      | none => simp
      | some run =>
        by_cases hrange : 1 ≤ natOfDigits run ∧ natOfDigits run ≤ 30
        · simp only [hrange, if_true]
          constructor
          · intro h; exact absurd h (by simp)
          · rintro (h | ⟨r, hr, hout⟩)
            · exact absurd h (by simp)
            · rw [Option.some_inj] at hr
              subst hr
              rcases hout with h0 | h30
              · omega
              · omega
        · simp only [hrange, if_false]
          constructor
          · intro _
            right
            exact ⟨run, rfl, by omega⟩
          · intro _; trivial
  · intro run hrun h1 h30
    unfold parse_position
    have ht : text ≠ [] := by
      intro he
      rw [hempty he] at hrun
      exact Option.noConfusion hrun
    rw [firstDigitRun_pyStrip, hrun]
    simp [ht, h1, h30]

/-- Witness for C10 at a concrete input. -/
theorem parse_position_spec_witness :
    parse_position (("  12th ").toList) = some 12 ∧
    parse_position (("99!").toList) = none := by
  constructor
  · exact (parse_position_spec (("  12th ").toList)).2 (("12").toList)
      (by decide) (by decide) (by decide)
  · exact (parse_position_spec (("99!").toList)).1.mpr
      (Or.inr ⟨("99").toList, by decide, by decide⟩)

/-! ### Lemmas about clean_text -/

theorem splitAux_wsFree (l : List Char) : ∀ acc : List Char,
    (∀ c ∈ acc, isWs c = false) →
    ∀ t ∈ splitAux l acc, t ≠ [] ∧ ∀ c ∈ t, isWs c = false := by
  induction l with
  | nil =>
    intro acc hacc t ht
    simp only [splitAux] at ht
    by_cases ha : acc = []
    · simp [ha] at ht
    · simp only [ha, if_false, List.mem_singleton] at ht
      subst ht
      refine ⟨by simp [ha], ?_⟩
      intro c hc
      exact hacc c (List.mem_reverse.mp hc)
  | cons x rest ih =>
    intro acc hacc t ht
    simp only [splitAux] at ht
    by_cases hx : isWs x = true
    · simp only [hx, if_true] at ht
      by_cases ha : acc = []
      · simp only [ha, if_true] at ht
        exact ih [] (by simp) t ht
      · simp only [ha, if_false, List.mem_cons] at ht
        rcases ht with ht | ht
        · subst ht
          refine ⟨by simp [ha], ?_⟩
          intro c hc
          exact hacc c (List.mem_reverse.mp hc)
        · exact ih [] (by simp) t ht
    · simp only [hx, if_false] at ht
      refine ih (x :: acc) ?_ t ht
      intro c hc
      rcases List.mem_cons.mp hc with hc | hc
      · subst hc; simpa using hx
      · exact hacc c hc

theorem splitAux_mem (l : List Char) : ∀ acc : List Char,
    ∀ t ∈ splitAux l acc, ∀ c ∈ t, c ∈ l ∨ c ∈ acc := by
  induction l with
  | nil =>
    intro acc t ht c hc
    simp only [splitAux] at ht
    by_cases ha : acc = []
    · simp [ha] at ht
    · simp only [ha, if_false, List.mem_singleton] at ht
      subst ht
      exact Or.inr (List.mem_reverse.mp hc)
  | cons x rest ih =>
    intro acc t ht c hc
    simp only [splitAux] at ht
    by_cases hx : isWs x = true
    · simp only [hx, if_true] at ht
      by_cases ha : acc = []
      · simp only [ha, if_true] at ht
        rcases ih [] t ht c hc with h | h
        · exact Or.inl (List.mem_cons_of_mem x h)
        · simp at h
      · simp only [ha, if_false, List.mem_cons] at ht
        rcases ht with ht | ht
        · subst ht
          exact Or.inr (List.mem_reverse.mp hc)
        · rcases ih [] t ht c hc with h | h
          · exact Or.inl (List.mem_cons_of_mem x h)
          · simp at h
    · simp only [hx, if_false] at ht
      rcases ih (x :: acc) t ht c hc with h | h
      · exact Or.inl (List.mem_cons_of_mem x h)
      · rcases List.mem_cons.mp h with h | h
        · subst h; exact Or.inl (by simp)
        · exact Or.inr h

theorem mem_joinSpace {c : Char} : ∀ {ts : List (List Char)},
    c ∈ joinSpace ts → c = ' ' ∨ ∃ t ∈ ts, c ∈ t := by
  intro ts
  induction ts with
  | nil => intro h; simp [joinSpace] at h
  | cons t ts ih =>
    intro h
    cases ts with
    | nil =>
      simp only [joinSpace] at h
      exact Or.inr ⟨t, by simp, h⟩
    | cons t' ts' =>
      simp only [joinSpace, List.mem_append, List.mem_cons] at h
      rcases h with h | h | h
      · exact Or.inr ⟨t, by simp, h⟩
      · exact Or.inl h
      · rcases ih h with h | ⟨u, hu, hc⟩
        · exact Or.inl h
        · exact Or.inr ⟨u, List.mem_cons_of_mem t hu, hc⟩

theorem replace2_id (x : Char) : ∀ l : List Char,
    '\\' ∉ l → replace2 '\\' x ' ' l = l := by
  intro l
  induction l with
  | nil => intro _; rfl
  | cons c r ih =>
    intro h
    cases r with
    | nil => rfl
    | cons d r' =>
      have hc : c ≠ '\\' := fun he => h (he ▸ List.mem_cons_self c (d :: r'))
      simp only [replace2]
      rw [if_neg (fun hcd => hc hcd.1)]
      rw [ih (fun hm => h (List.mem_cons_of_mem c hm))]

theorem dropWhile_head_false {p : Char → Bool} : ∀ {l : List Char} {c : Char}
    {r : List Char}, l.dropWhile p = c :: r → p c = false := by
  intro l
  induction l with
  | nil => intro c r h; simp at h
  | cons a l ih =>
    intro c r h
    by_cases ha : p a = true
    · rw [List.dropWhile_cons_of_pos ha] at h
      exact ih h
    · rw [List.dropWhile_cons_of_neg (by simp [ha])] at h
      cases h
      simpa using ha

theorem dropWhile_getLast? {p : Char → Bool} : ∀ l : List Char,
    l.dropWhile p ≠ [] → (l.dropWhile p).getLast? = l.getLast? := by
  intro l
  induction l with
  | nil => intro h; simp at h
  | cons a l ih =>
    intro h
    by_cases ha : p a = true
    · rw [List.dropWhile_cons_of_pos ha] at h ⊢
      rw [ih h]
      have hl : l ≠ [] := by
        intro he
        subst he
        simp at h
      cases l with
      | nil => exact absurd rfl hl
      | cons b l' => rw [List.getLast?_cons_cons]
    · rw [List.dropWhile_cons_of_neg (by simp [ha])]

theorem mem_of_head? {c : Char} : ∀ {l : List Char}, l.head? = some c → c ∈ l := by
  intro l h
  cases l with
  | nil => simp at h
  | cons a r =>
    simp only [List.head?_cons, Option.some_inj] at h
    subst h
    simp

theorem mem_of_getLast? {c : Char} : ∀ {l : List Char}, l.getLast? = some c → c ∈ l := by
  intro l
  induction l with
  | nil => intro h; simp at h
  | cons a r ih =>
    intro h
    cases r with
    | nil =>
      simp only [List.getLast?_singleton, Option.some_inj] at h
      subst h
      simp
    | cons b r' =>
      rw [List.getLast?_cons_cons] at h
      exact List.mem_cons_of_mem a (ih h)

theorem pyStrip_head_not_ws {l : List Char} {c : Char}
    (h : (pyStrip l).head? = some c) : isWs c = false := by
  unfold pyStrip dropTrail at h
  set y := l.dropWhile isWs with hy
  rw [List.head?_reverse] at h
  set x := y.reverse.dropWhile isWs with hx
  have hxne : x ≠ [] := by
    intro he
    rw [he] at h
    simp at h
  have h2 : y.reverse.getLast? = some c := by
    rw [← dropWhile_getLast? y.reverse hxne, ← hx, h]
  rw [List.getLast?_reverse] at h2
  cases hyc : y with
  | nil => rw [hyc] at h2; simp at h2
  | cons a r =>
    rw [hyc] at h2
    simp only [List.head?_cons, Option.some_inj] at h2
    exact h2 ▸ dropWhile_head_false (hy.symm.trans hyc)

theorem pyStrip_getLast_not_ws {l : List Char} {c : Char}
    (h : (pyStrip l).getLast? = some c) : isWs c = false := by
  unfold pyStrip dropTrail at h
  rw [List.getLast?_reverse] at h
  cases hx : (l.dropWhile isWs).reverse.dropWhile isWs with
  | nil => rw [hx] at h; simp at h
  | cons a r =>
    rw [hx] at h
    simp only [List.head?_cons, Option.some_inj] at h
    exact h ▸ dropWhile_head_false hx

theorem joinSpace_ne_nil : ∀ {ts : List (List Char)}, ts ≠ [] →
    (∀ t ∈ ts, t ≠ []) → joinSpace ts ≠ [] := by
  intro ts hne hts
  cases ts with
  | nil => exact absurd rfl hne
  | cons t ts' =>
    cases ts' with
    | nil => exact hts t (by simp)
    | cons t' ts'' =>
      simp only [joinSpace]
      intro he
      rcases List.append_eq_nil.mp he with ⟨_, h2⟩
      exact List.noConfusion h2

theorem joinSpace_head_not_ws : ∀ {ts : List (List Char)},
    (∀ t ∈ ts, t ≠ []) → (∀ t ∈ ts, ∀ c ∈ t, isWs c = false) →
    ∀ c, (joinSpace ts).head? = some c → isWs c = false := by
  intro ts h1 h2 c hc
  cases ts with
  | nil => simp [joinSpace] at hc
  | cons t ts' =>
    have hmem : c ∈ t := by
      cases ts' with
      | nil =>
        simp only [joinSpace] at hc
        exact mem_of_head? hc
      | cons t' ts'' =>
        simp only [joinSpace] at hc
        cases ht : t with
        | nil => exact absurd ht (h1 t (by simp))
        | cons a r =>
          rw [ht, List.cons_append, List.head?_cons, Option.some_inj] at hc
          subst hc
          simp
    exact h2 t (by simp) c hmem

theorem getLast?_append_right {l₂ : List Char} (h : l₂ ≠ []) :
    ∀ l₁ : List Char, (l₁ ++ l₂).getLast? = l₂.getLast? := by
  intro l₁
  induction l₁ with
  | nil => rfl
  | cons a l ih =>
    rw [List.cons_append]
    have hne : l ++ l₂ ≠ [] := by
      intro he
      exact h (List.append_eq_nil.mp he).2
    cases hl : l ++ l₂ with
    | nil => exact absurd hl hne
    | cons b r =>
      rw [← hl, ← ih, hl, List.getLast?_cons_cons]

theorem joinSpace_getLast_not_ws : ∀ {ts : List (List Char)},
    (∀ t ∈ ts, t ≠ []) → (∀ t ∈ ts, ∀ c ∈ t, isWs c = false) →
    ∀ c, (joinSpace ts).getLast? = some c → isWs c = false := by
  intro ts
  induction ts with
  | nil => intro _ _ c hc; simp [joinSpace] at hc
  | cons t ts' ih =>
    intro h1 h2 c hc
    cases ts' with
    | nil =>
      simp only [joinSpace] at hc
      exact h2 t (by simp) c (mem_of_getLast? hc)
    | cons t' ts'' =>
      simp only [joinSpace] at hc
      have hJne : joinSpace (t' :: ts'') ≠ [] :=
        joinSpace_ne_nil (by simp) (fun u hu => h1 u (List.mem_cons_of_mem t hu))
      rw [getLast?_append_right (by simp) t] at hc
      cases hJ : joinSpace (t' :: ts'') with
      | nil => exact absurd hJ hJne
      | cons b r =>
        rw [hJ, List.getLast?_cons_cons, ← hJ] at hc
        exact ih (fun u hu => h1 u (List.mem_cons_of_mem t hu))
          (fun u hu => h2 u (List.mem_cons_of_mem t hu)) c hc

theorem noTwoSpaces_spaceless : ∀ {t : List Char},
    (∀ c ∈ t, c ≠ ' ') → noTwoSpaces t = true := by
  intro t
  induction t with
  | nil => intro _; rfl
  | cons c r ih =>
    intro h
    cases r with
    | nil => rfl
    | cons d r' =>
      have hc : c ≠ ' ' := h c (by simp)
      have hr := ih (fun x hx => h x (List.mem_cons_of_mem c hx))
      simp only [noTwoSpaces, Bool.and_eq_true, Bool.not_eq_true']
      refine ⟨by simp [hc], hr⟩

theorem noTwoSpaces_token_append : ∀ (t J : List Char),
    (∀ c ∈ t, c ≠ ' ') → noTwoSpaces (' ' :: J) = true →
    noTwoSpaces (t ++ ' ' :: J) = true := by
  intro t
  induction t with
  | nil => intro J _ hJ; simpa using hJ
  | cons c t' ih =>
    intro J h hJ
    have hc : c ≠ ' ' := h c (by simp)
    have ht' := ih J (fun x hx => h x (List.mem_cons_of_mem c hx)) hJ
    cases t' with
    | nil =>
      simp only [List.nil_append] at ht'
      simp only [List.cons_append, List.nil_append, noTwoSpaces,
        Bool.and_eq_true, Bool.not_eq_true']
      exact ⟨by simp [hc], ht'⟩
    | cons d t'' =>
      simp only [List.cons_append] at ht' ⊢
      simp only [noTwoSpaces, Bool.and_eq_true, Bool.not_eq_true']
      exact ⟨by simp [hc], ht'⟩

theorem noTwoSpaces_joinSpace : ∀ {ts : List (List Char)},
    (∀ t ∈ ts, t ≠ []) → (∀ t ∈ ts, ∀ c ∈ t, isWs c = false) →
    noTwoSpaces (joinSpace ts) = true := by
  intro ts
  induction ts with
  | nil => intro _ _; rfl
  | cons t ts' ih =>
    intro h1 h2
    have htsp : ∀ c ∈ t, c ≠ ' ' := by
      intro c hc he
      have hw := h2 t (by simp) c hc
      rw [he] at hw
      exact absurd hw (by decide)
    cases ts' with
    | nil => exact noTwoSpaces_spaceless htsp
    | cons t' ts'' =>
      show noTwoSpaces (t ++ ' ' :: joinSpace (t' :: ts'')) = true
      refine noTwoSpaces_token_append t _ htsp ?_
      have hrest1 : ∀ u ∈ t' :: ts'', u ≠ [] :=
        fun u hu => h1 u (List.mem_cons_of_mem t hu)
      have hrest2 : ∀ u ∈ t' :: ts'', ∀ c ∈ u, isWs c = false :=
        fun u hu => h2 u (List.mem_cons_of_mem t hu)
      have hJ := ih hrest1 hrest2
      have hJne : joinSpace (t' :: ts'') ≠ [] := joinSpace_ne_nil (by simp) hrest1
      cases hJc : joinSpace (t' :: ts'') with
      | nil => exact absurd hJc hJne
      | cons b r =>
        have hb : isWs b = false :=
          joinSpace_head_not_ws hrest1 hrest2 b (by rw [hJc]; rfl)
        have hbne : b ≠ ' ' := by
          intro he
          rw [he] at hb
          exact absurd hb (by decide)
        rw [hJc] at hJ
        simp only [noTwoSpaces, Bool.and_eq_true, Bool.not_eq_true']
        exact ⟨by simp [hbne], hJ⟩

theorem dropLead_id {l : List Char} (h : ∀ c, l.head? = some c → isWs c = false) :
    l.dropWhile isWs = l := by
  cases l with
  | nil => rfl
  | cons a r => exact List.dropWhile_cons_of_neg (by simp [h a rfl])

theorem dropTrail_id {l : List Char} (h : ∀ c, l.getLast? = some c → isWs c = false) :
    dropTrail l = l := by
  unfold dropTrail
  cases hrev : l.reverse with
  | nil =>
    have hl0 : l = [] := List.reverse_eq_nil_iff.mp hrev
    simp [hl0]
  | cons a r =>
    have ha : l.getLast? = some a := by
      rw [← List.head?_reverse, hrev]
      rfl
    rw [List.dropWhile_cons_of_neg (by simp [h a ha]), ← hrev, List.reverse_reverse]

theorem pyStrip_id {l : List Char} (hh : ∀ c, l.head? = some c → isWs c = false)
    (hl : ∀ c, l.getLast? = some c → isWs c = false) : pyStrip l = l := by
  unfold pyStrip
  rw [dropLead_id hh]
  exact dropTrail_id hl

/-! ### Claim C2: clean_text -/

/-- C2 counterexample: the claim that every `clean_text` output contains
no run of two or more consecutive spaces is false.  On the input
a, space, backslash, n, space, b the split-and-join step yields
a space backslash n space b, and replacing the literal two-character
sequence backslash-n by a space produces a triple space that the final
strip does not remove. -/
theorem clean_text_counterexample :
    noTwoSpaces (clean_text (("a \\n b").toList)) = false := by decide

/-- C2 amended: `clean_text` of the empty string is the empty string and
every output is free of leading and trailing whitespace; the no-double-
space guarantee holds only for inputs that contain no backslash (so no
literal escaped newline or tab sequence). -/
theorem clean_text_spec_amended (text : List Char) :
    clean_text [] = [] ∧
    (∀ c, (clean_text text).head? = some c → isWs c = false) ∧
    (∀ c, (clean_text text).getLast? = some c → isWs c = false) ∧
    ('\\' ∉ text → noTwoSpaces (clean_text text) = true) := by
  refine ⟨rfl, ?_, ?_, ?_⟩
  · intro c hc
    unfold clean_text at hc
    by_cases ht : text = []
    · simp [ht] at hc
    · simp only [ht, if_false] at hc
      exact pyStrip_head_not_ws hc
  · intro c hc
    unfold clean_text at hc
    by_cases ht : text = []
    · simp [ht] at hc
    · simp only [ht, if_false] at hc
      exact pyStrip_getLast_not_ws hc
  · intro hbs
    unfold clean_text
    by_cases ht : text = []
    · simp [ht]
      rfl
    · simp only [ht, if_false]
      have htok : ∀ t ∈ pySplitWs text, t ≠ [] ∧ ∀ c ∈ t, isWs c = false :=
        splitAux_wsFree text [] (by simp)
      have h1 : ∀ t ∈ pySplitWs text, t ≠ [] := fun t ht' => (htok t ht').1
      have h2 : ∀ t ∈ pySplitWs text, ∀ c ∈ t, isWs c = false :=
        fun t ht' => (htok t ht').2
      have hjbs : '\\' ∉ joinSpace (pySplitWs text) := by
        intro hmem
        rcases mem_joinSpace hmem with h | ⟨t, htm, hct⟩
        · exact absurd h (by decide)
        · rcases splitAux_mem text [] t htm '\\' hct with h | h
          · exact hbs h
          · simp at h
      rw [replace2_id 'n' _ hjbs, replace2_id 't' _ hjbs]
      rw [pyStrip_id (joinSpace_head_not_ws h1 h2) (joinSpace_getLast_not_ws h1 h2)]
      exact noTwoSpaces_joinSpace h1 h2

/-- Witness for the amended C2 at a concrete input: the cleaned form of
a string with extra internal and surrounding whitespace starts and ends
with non-whitespace and has no double space. -/
theorem clean_text_spec_amended_witness :
    isWs 'h' = false ∧ isWs 'e' = false ∧
    noTwoSpaces (clean_text (("  hi   there ").toList)) = true := by
  refine ⟨?_, ?_, ?_⟩
  · exact (clean_text_spec_amended (("  hi   there ").toList)).2.1 'h' (by decide)
  · exact (clean_text_spec_amended (("  hi   there ").toList)).2.2.1 'e' (by decide)
  · exact (clean_text_spec_amended (("  hi   there ").toList)).2.2.2 (by decide)

/-! ### Field extraction (BaseScraper.safe_extract_text and the
find-with-fallback pattern of _extract_driver_from_card) -/

/-- A located document element, carrying the text `get_text` would
return for it. -/
structure Elem where
  txt : List Char
deriving DecidableEq

/-- Embedding of `BaseScraper.safe_extract_text`: return the element
text when the element is present, the caller-supplied default
otherwise. -/
def safe_extract_text (e : Option Elem) (default : List Char) : List Char :=
  match e with
  | some el => el.txt
  | none => default

/-- The fallback pattern of `_extract_driver_from_card`: run the first
locator; only if it returned no element run the next, and so on.  Each
entry of the list is the result of one `find` call on the card. -/
def find_chain : List (Option Elem) → Option Elem
  | [] => none
  | o :: rest =>
    match o with
    | some e => some e
    | none => find_chain rest

/-! ### Claim C8: first-match-wins field extraction -/

/-- C8: with an ordered locator chain of two strategies, extraction
returns the first strategy's match even when the second would also
match, and returns the caller-supplied default when neither matches,
without any error path. -/
theorem first_match_wins (a b : Option Elem) (d : List Char) :
    (∀ e, a = some e → safe_extract_text (find_chain [a, b]) d = e.txt) ∧
    (a = none → b = none → safe_extract_text (find_chain [a, b]) d = d) := by
  constructor
  · intro e ha
    subst ha
    rfl
  · intro ha hb
    subst ha
    subst hb
    rfl

/-- Witness for C8: strategy A matching X wins over strategy B matching
Y, and an all-miss chain yields the default. -/
theorem first_match_wins_witness :
    safe_extract_text (find_chain [some ⟨("X").toList⟩, some ⟨("Y").toList⟩])
      (("dflt").toList) = ("X").toList ∧
    safe_extract_text (find_chain [none, none]) (("dflt").toList) = ("dflt").toList := by
  constructor
  · exact (first_match_wins (some ⟨("X").toList⟩) (some ⟨("Y").toList⟩)
      (("dflt").toList)).1 ⟨("X").toList⟩ rfl
  · exact (first_match_wins none none (("dflt").toList)).2 rfl rfl

/-! ### Fetcher (BaseScraper.get_page) -/

/-- One run of the retry loop of `BaseScraper.get_page`.  `outcomes i`
is the transport result of attempt `i` (counted from 0): `some doc` for
a successful 2xx response parsed into a document, `none` for a timeout,
connection error or non-2xx status (`requests.RequestException`).  The
second component collects the backoff sleeps `2 ^ attempt` performed
between failed attempts.  The countdown `k` is the number of loop
iterations remaining, `retries` the loop bound. -/
def get_page_go {α : Type} (outcomes : Nat → Option α) (retries : Nat) :
    Nat → Nat → Option α × List Nat
  | _, 0 => (none, [])
  | attempt, k + 1 =>
    match outcomes attempt with
    | some doc => (some doc, [])
    | none =>
      if attempt = retries - 1 then (none, [])
      else
        let r := get_page_go outcomes retries (attempt + 1) k
        (r.1, 2 ^ attempt :: r.2)

/-- Embedding of `BaseScraper.get_page`: `for attempt in range(retries)`
starting at attempt 0, with the source default of three retries. -/
def get_page {α : Type} (outcomes : Nat → Option α) (retries : Nat := 3) :
    Option α × List Nat :=
  get_page_go outcomes retries 0 retries

theorem get_page_go_all_fail {α : Type} (outcomes : Nat → Option α) (retries : Nat)
    (hfail : ∀ i, i < retries → outcomes i = none) :
    ∀ k attempt, attempt + k = retries →
      get_page_go outcomes retries attempt k =
        (none, (List.range' attempt (retries - 1 - attempt)).map (fun i => 2 ^ i)) := by
  intro k
  induction k with
  | zero =>
    intro attempt h
    have : retries - 1 - attempt = 0 := by omega
    simp [get_page_go, this]
  | succ k ih =>
    intro attempt h
    have hlt : attempt < retries := by omega
    simp only [get_page_go, hfail attempt hlt]
    by_cases hlast : attempt = retries - 1
    · have : retries - 1 - attempt = 0 := by omega
      simp [hlast, this]
    · simp only [hlast, if_false]
      rw [ih (attempt + 1) (by omega)]
      have hrange : retries - 1 - attempt = (retries - 1 - (attempt + 1)) + 1 := by omega
      rw [hrange, List.range'_succ, List.map_cons]

/-! ### Claim C4: retry with exponential backoff -/

/-- C4: when every attempt fails at the transport level, `get_page`
performs the full sequence of backoff sleeps of 2 ^ attempt seconds
between consecutive attempts and returns the definitive failure value
`none`; with the default of three retries, failures on attempts 0 and 1
followed by a success on attempt 2 return the parsed document (the
third sleep, and retry exhaustion, are never reached). -/
theorem get_page_retry_spec {α : Type} (outcomes : Nat → Option α) (retries : Nat)
    (doc : α) :
    ((∀ i, i < retries → outcomes i = none) →
      get_page outcomes retries =
        (none, (List.range (retries - 1)).map (fun i => 2 ^ i))) ∧
    (outcomes 0 = none → outcomes 1 = none → outcomes 2 = some doc →
      get_page outcomes = (some doc, [1, 2])) := by
  constructor
  · intro hfail
    unfold get_page
    rw [get_page_go_all_fail outcomes retries hfail retries 0 (by omega)]
    rw [List.range_eq_range']
    simp
  · intro h0 h1 h2
    unfold get_page
    show get_page_go outcomes 3 0 3 = (some doc, [1, 2])
    simp [get_page_go, h0, h1, h2]

/-- Witness for C4: a transport that always fails exhausts three
attempts sleeping 1 then 2 seconds, and a transport succeeding on the
third attempt returns the document. -/
theorem get_page_retry_spec_witness :
    get_page (fun _ => (none : Option Nat)) 3 = (none, [1, 2]) ∧
    get_page (fun i => if i < 2 then (none : Option Nat) else some 7) =
      (some 7, [1, 2]) := by
  constructor
  · exact (get_page_retry_spec (fun _ => (none : Option Nat)) 3 7).1
      (fun i _ => rfl)
  · exact (get_page_retry_spec (fun i => if i < 2 then (none : Option Nat) else some 7)
      3 7).2 rfl rfl rfl

/-! ### Persistence layer (src/src/database/__init__.py) -/

/-- Scraped driver value: the fields of the `Driver` dataclass that
`DatabaseManager.insert_driver` binds into its INSERT statement. -/
structure Driver where
  name : List Char
  nationality : List Char
  team : List Char
  points : Nat
deriving DecidableEq

/-- Scraped team value: the fields `insert_team` persists. -/
structure Team where
  name : List Char
  points : Nat
deriving DecidableEq

/-- A row of the `drivers` table of `_create_tables`, with the
AUTOINCREMENT surrogate `driver_id`, the UNIQUE(name, nationality)
natural key, and the two timestamp columns. -/
structure DriverRow where
  driver_id : Nat
  name : List Char
  nationality : List Char
  team : List Char
  points : Nat
  created_at : Nat
  updated_at : Nat
deriving DecidableEq

/-- A row of the `teams` table, natural key `name` (UNIQUE). -/
structure TeamRow where
  team_id : Nat
  name : List Char
  points : Nat
  created_at : Nat
  updated_at : Nat
deriving DecidableEq

/-- A row of the `races` table, natural key (season, round_number). -/
structure RaceRow where
  race_id : Nat
  season : Nat
  round_number : Nat
  race_name : List Char
  circuit_name : List Char
  country : List Char
  date : List Char
  created_at : Nat
  updated_at : Nat
deriving DecidableEq

/-- The `drivers` table: rows in rowid order plus the next
AUTOINCREMENT id. -/
structure DriversTable where
  rows : List DriverRow
  next_id : Nat
deriving DecidableEq

/-- The `teams` table. -/
structure TeamsTable where
  rows : List TeamRow
  next_id : Nat
deriving DecidableEq

/-- The `races` table. -/
structure RacesTable where
  rows : List RaceRow
  next_id : Nat
deriving DecidableEq

/-- UNIQUE(name, nationality) conflict test of the `drivers` table. -/
def driverKeyMatch (d : Driver) (r : DriverRow) : Bool :=
  r.name == d.name && r.nationality == d.nationality

/-- UNIQUE(name) conflict test of the `teams` table. -/
def teamKeyMatch (tm : Team) (r : TeamRow) : Bool :=
  r.name == tm.name

/-- UNIQUE(season, round_number) conflict test of the `races` table. -/
def raceKeyMatch (season rn : Nat) (r : RaceRow) : Bool :=
  r.season == season && r.round_number == rn

/-- Embedding of `DatabaseManager.insert_driver`: SQLite
INSERT OR REPLACE deletes every row conflicting on the natural key and
inserts a fresh row with a new AUTOINCREMENT rowid; `created_at` takes
its column default CURRENT_TIMESTAMP and `updated_at` the explicitly
bound `datetime.now()`, both modelled by the clock value `now`.
Returns the new table and `cursor.lastrowid`. -/
def insert_driver (tbl : DriversTable) (d : Driver) (now : Nat) :
    DriversTable × Nat :=
  let newRow : DriverRow :=
    ⟨tbl.next_id, d.name, d.nationality, d.team, d.points, now, now⟩
  (⟨tbl.rows.filter (fun r => !driverKeyMatch d r) ++ [newRow], tbl.next_id + 1⟩,
    tbl.next_id)

/-- Embedding of `DatabaseManager.insert_team`. -/
def insert_team (tbl : TeamsTable) (tm : Team) (now : Nat) :
    TeamsTable × Nat :=
  let newRow : TeamRow := ⟨tbl.next_id, tm.name, tm.points, now, now⟩
  (⟨tbl.rows.filter (fun r => !teamKeyMatch tm r) ++ [newRow], tbl.next_id + 1⟩,
    tbl.next_id)

/-- Embedding of `DatabaseManager.insert_race` (season, round number,
race name, circuit name, country, date). -/
def insert_race (tbl : RacesTable) (season rn : Nat)
    (race_name circuit_name country date : List Char) (now : Nat) :
    RacesTable × Nat :=
  let newRow : RaceRow :=
    ⟨tbl.next_id, season, rn, race_name, circuit_name, country, date, now, now⟩
  (⟨tbl.rows.filter (fun r => !raceKeyMatch season rn r) ++ [newRow],
    tbl.next_id + 1⟩, tbl.next_id)

theorem filter_after_filter_not {α : Type} (p : α → Bool) (l : List α) :
    (l.filter (fun r => !p r)).filter p = [] := by
  induction l with
  | nil => rfl
  | cons a l ih =>
    by_cases ha : p a = true
    · simp [List.filter_cons, ha, ih]
    · simp [List.filter_cons, ha, ih]

theorem insert_driver_filter (tbl : DriversTable) (d : Driver) (now : Nat) :
    (insert_driver tbl d now).1.rows.filter (fun r => driverKeyMatch d r) =
      [⟨tbl.next_id, d.name, d.nationality, d.team, d.points, now, now⟩] := by
  unfold insert_driver
  simp only [List.filter_append, filter_after_filter_not, List.nil_append]
  simp [List.filter_cons, driverKeyMatch]

theorem insert_team_filter (tbl : TeamsTable) (tm : Team) (now : Nat) :
    (insert_team tbl tm now).1.rows.filter (fun r => teamKeyMatch tm r) =
      [⟨tbl.next_id, tm.name, tm.points, now, now⟩] := by
  unfold insert_team
  simp only [List.filter_append, filter_after_filter_not, List.nil_append]
  simp [List.filter_cons, teamKeyMatch]

theorem insert_race_filter (tbl : RacesTable) (season rn : Nat)
    (race_name circuit_name country date : List Char) (now : Nat) :
    (insert_race tbl season rn race_name circuit_name country date now).1.rows.filter
        (fun r => raceKeyMatch season rn r) =
      [⟨tbl.next_id, season, rn, race_name, circuit_name, country, date, now, now⟩] := by
  unfold insert_race
  simp only [List.filter_append, filter_after_filter_not, List.nil_append]
  simp [List.filter_cons, raceKeyMatch]

/-! ### Claim C3: upsert idempotence -/

/-- C3: upserting the same entity value twice (same (name, nationality)
for drivers, same name for teams, same (season, round_number) for
races) leaves exactly one row under that natural key, and that row's
`updated_at` is the second clock value, strictly later than the
first. -/
theorem upsert_idempotent (t1 t2 : Nat) (h : t1 < t2)
    (dt : DriversTable) (d : Driver) (tt : TeamsTable) (tm : Team)
    (rt : RacesTable) (season rn : Nat) (nm cn co da : List Char) :
    (((insert_driver (insert_driver dt d t1).1 d t2).1.rows.filter
        (fun r => driverKeyMatch d r)).length = 1 ∧
      ∀ r ∈ (insert_driver (insert_driver dt d t1).1 d t2).1.rows,
        driverKeyMatch d r = true → r.updated_at = t2 ∧ t1 < r.updated_at) ∧
    (((insert_team (insert_team tt tm t1).1 tm t2).1.rows.filter
        (fun r => teamKeyMatch tm r)).length = 1 ∧
      ∀ r ∈ (insert_team (insert_team tt tm t1).1 tm t2).1.rows,
        teamKeyMatch tm r = true → r.updated_at = t2 ∧ t1 < r.updated_at) ∧
    (((insert_race (insert_race rt season rn nm cn co da t1).1
          season rn nm cn co da t2).1.rows.filter
        (fun r => raceKeyMatch season rn r)).length = 1 ∧
      ∀ r ∈ (insert_race (insert_race rt season rn nm cn co da t1).1
          season rn nm cn co da t2).1.rows,
        raceKeyMatch season rn r = true → r.updated_at = t2 ∧ t1 < r.updated_at) := by
  refine ⟨⟨?_, ?_⟩, ⟨?_, ?_⟩, ⟨?_, ?_⟩⟩
  · rw [insert_driver_filter]
    rfl
  · intro r hr hm
    have hmem : r ∈ (insert_driver (insert_driver dt d t1).1 d t2).1.rows.filter
        (fun x => driverKeyMatch d x) := List.mem_filter.mpr ⟨hr, hm⟩
    rw [insert_driver_filter] at hmem
    simp only [List.mem_singleton] at hmem
    subst hmem
    exact ⟨rfl, h⟩
  · rw [insert_team_filter]
    rfl
  · intro r hr hm
    have hmem : r ∈ (insert_team (insert_team tt tm t1).1 tm t2).1.rows.filter
        (fun x => teamKeyMatch tm x) := List.mem_filter.mpr ⟨hr, hm⟩
    rw [insert_team_filter] at hmem
    simp only [List.mem_singleton] at hmem
    subst hmem
    exact ⟨rfl, h⟩
  · rw [insert_race_filter]
    rfl
  · intro r hr hm
    have hmem : r ∈ (insert_race (insert_race rt season rn nm cn co da t1).1
        season rn nm cn co da t2).1.rows.filter
        (fun x => raceKeyMatch season rn x) := List.mem_filter.mpr ⟨hr, hm⟩
    rw [insert_race_filter] at hmem
    simp only [List.mem_singleton] at hmem
    subst hmem
    exact ⟨rfl, h⟩

/-- Witness for C3 at a concrete run: two upserts of the same driver at
clock 10 then 11 into an empty table leave one key row, updated at 11. -/
theorem upsert_idempotent_witness :
    (((insert_driver (insert_driver ⟨[], 1⟩
        ⟨("A").toList, ("B").toList, ("C").toList, 5⟩ 10).1
        ⟨("A").toList, ("B").toList, ("C").toList, 5⟩ 11).1.rows.filter
      (fun r => driverKeyMatch ⟨("A").toList, ("B").toList, ("C").toList, 5⟩ r)).length
        = 1) ∧
    ((⟨2, ("A").toList, ("B").toList, ("C").toList, 5, 11, 11⟩ : DriverRow).updated_at
        = 11 ∧
      10 < (⟨2, ("A").toList, ("B").toList, ("C").toList, 5, 11, 11⟩ :
        DriverRow).updated_at) := by
  have h := upsert_idempotent 10 11 (by decide) ⟨[], 1⟩
    ⟨("A").toList, ("B").toList, ("C").toList, 5⟩ ⟨[], 1⟩ ⟨("T").toList, 3⟩
    ⟨[], 1⟩ 2024 1 ("R").toList [] [] []
  refine ⟨h.1.1, ?_⟩
  exact h.1.2 ⟨2, ("A").toList, ("B").toList, ("C").toList, 5, 11, 11⟩
    (by decide) (by decide)

/-! ### Claim C9: INSERT OR REPLACE renews surrogate id and created_at -/

/-- C9: when an upsert hits an existing natural key the surviving row is
a fresh insert: across two upserts of the same logical entity the key
row's surrogate id (driver_id, team_id, race_id) and its `created_at`
both change, for all three entity tables. -/
theorem upsert_fresh_surrogates (t1 t2 : Nat) (h : t1 ≠ t2)
    (dt : DriversTable) (d : Driver) (tt : TeamsTable) (tm : Team)
    (rt : RacesTable) (season rn : Nat) (nm cn co da : List Char) :
    (∀ r1 ∈ (insert_driver dt d t1).1.rows, driverKeyMatch d r1 = true →
      ∀ r2 ∈ (insert_driver (insert_driver dt d t1).1 d t2).1.rows,
        driverKeyMatch d r2 = true →
        r1.driver_id ≠ r2.driver_id ∧ r1.created_at ≠ r2.created_at) ∧
    (∀ r1 ∈ (insert_team tt tm t1).1.rows, teamKeyMatch tm r1 = true →
      ∀ r2 ∈ (insert_team (insert_team tt tm t1).1 tm t2).1.rows,
        teamKeyMatch tm r2 = true →
        r1.team_id ≠ r2.team_id ∧ r1.created_at ≠ r2.created_at) ∧
    (∀ r1 ∈ (insert_race rt season rn nm cn co da t1).1.rows,
      raceKeyMatch season rn r1 = true →
      ∀ r2 ∈ (insert_race (insert_race rt season rn nm cn co da t1).1
          season rn nm cn co da t2).1.rows,
        raceKeyMatch season rn r2 = true →
        r1.race_id ≠ r2.race_id ∧ r1.created_at ≠ r2.created_at) := by
  refine ⟨?_, ?_, ?_⟩
  · intro r1 h1m hk1 r2 h2m hk2
    have hm1 : r1 ∈ (insert_driver dt d t1).1.rows.filter
        (fun x => driverKeyMatch d x) := List.mem_filter.mpr ⟨h1m, hk1⟩
    have hm2 : r2 ∈ (insert_driver (insert_driver dt d t1).1 d t2).1.rows.filter
        (fun x => driverKeyMatch d x) := List.mem_filter.mpr ⟨h2m, hk2⟩
    rw [insert_driver_filter] at hm1 hm2
    simp only [List.mem_singleton] at hm1 hm2
    subst hm1
    subst hm2
    refine ⟨?_, h⟩
    show dt.next_id ≠ (insert_driver dt d t1).1.next_id
    simp only [insert_driver]
    omega
  · intro r1 h1m hk1 r2 h2m hk2
    have hm1 : r1 ∈ (insert_team tt tm t1).1.rows.filter
        (fun x => teamKeyMatch tm x) := List.mem_filter.mpr ⟨h1m, hk1⟩
    have hm2 : r2 ∈ (insert_team (insert_team tt tm t1).1 tm t2).1.rows.filter
        (fun x => teamKeyMatch tm x) := List.mem_filter.mpr ⟨h2m, hk2⟩
    rw [insert_team_filter] at hm1 hm2
    simp only [List.mem_singleton] at hm1 hm2
    subst hm1
    subst hm2
    refine ⟨?_, h⟩
    show tt.next_id ≠ (insert_team tt tm t1).1.next_id
    simp only [insert_team]
    omega
  · intro r1 h1m hk1 r2 h2m hk2
    have hm1 : r1 ∈ (insert_race rt season rn nm cn co da t1).1.rows.filter
        (fun x => raceKeyMatch season rn x) := List.mem_filter.mpr ⟨h1m, hk1⟩
    have hm2 : r2 ∈ (insert_race (insert_race rt season rn nm cn co da t1).1
        season rn nm cn co da t2).1.rows.filter
        (fun x => raceKeyMatch season rn x) := List.mem_filter.mpr ⟨h2m, hk2⟩
    rw [insert_race_filter] at hm1 hm2
    simp only [List.mem_singleton] at hm1 hm2
    subst hm1
    subst hm2
    refine ⟨?_, h⟩
    show rt.next_id ≠ (insert_race rt season rn nm cn co da t1).1.next_id
    simp only [insert_race]
    omega

/-- Witness for C9 at a concrete run: the key row after the first
upsert (id 1, created at 10) and after the second (id 2, created at 11)
differ in id and creation time. -/
theorem upsert_fresh_surrogates_witness :
    (⟨1, ("A").toList, ("B").toList, ("C").toList, 5, 10, 10⟩ :
        DriverRow).driver_id ≠
      (⟨2, ("A").toList, ("B").toList, ("C").toList, 5, 11, 11⟩ :
        DriverRow).driver_id ∧
    (⟨1, ("A").toList, ("B").toList, ("C").toList, 5, 10, 10⟩ :
        DriverRow).created_at ≠
      (⟨2, ("A").toList, ("B").toList, ("C").toList, 5, 11, 11⟩ :
        DriverRow).created_at := by
  exact (upsert_fresh_surrogates 10 11 (by decide) ⟨[], 1⟩
    ⟨("A").toList, ("B").toList, ("C").toList, 5⟩ ⟨[], 1⟩ ⟨("T").toList, 3⟩
    ⟨[], 1⟩ 2024 1 ("R").toList [] [] []).1
    ⟨1, ("A").toList, ("B").toList, ("C").toList, 5, 10, 10⟩ (by decide) (by decide)
    ⟨2, ("A").toList, ("B").toList, ("C").toList, 5, 11, 11⟩ (by decide) (by decide)

/-! ### Race results builder (src/src/scrapers/races_scraper.py) -/

/-- The store as seen by `_scrape_single_race_results`: the `drivers`
and `teams` tables it resolves names against. -/
structure DB where
  drivers : DriversTable
  teams : TeamsTable
deriving DecidableEq

/-- Embedding of `DatabaseManager.get_driver_by_name`: SELECT by name,
`fetchone` returns the first matching row or nothing. -/
def get_driver_by_name (db : DB) (n : List Char) : Option DriverRow :=
  db.drivers.rows.find? (fun r => r.name == n)

/-- Embedding of `DatabaseManager.get_team_by_name`. -/
def get_team_by_name (db : DB) (n : List Char) : Option TeamRow :=
  db.teams.rows.find? (fun r => r.name == n)

/-- The `RaceResult` dataclass fields that
`_scrape_single_race_results` sets (defaults: ids 0, position None,
points 0, time None, status empty). -/
structure RaceResult where
  driver_id : Nat
  team_id : Nat
  position : Option Nat
  points : Nat
  time : Option (List Char)
  status : List Char
deriving DecidableEq

/-- Embedding of the per-row body of `_scrape_single_race_results`:
`cells` is the list of cell texts of one table row.  Rows with fewer
than five cells are skipped; position comes from cell 0, the driver
name from cell 1, the team name from cell 2, points from the last cell
(0 when unparseable); with more than five cells the time and status
fields are set as in the source.  The row is emitted only when both
name lookups succeed with Python-truthy (non-zero) ids, else nothing. -/
def processResultRow (db : DB) (cells : List (List Char)) : Option RaceResult :=
  if 5 ≤ cells.length then
    let position := parse_number (cells.getD 0 [])
    let driver_name := clean_text (cells.getD 1 [])
    let team_name := clean_text (cells.getD 2 [])
    let points := (parse_number ((cells.getLast?).getD [])).getD 0
    let time := if 5 < cells.length then some (clean_text (cells.getD 4 [])) else none
    let status := if 5 < cells.length then
        (if 6 < cells.length then clean_text (cells.getD 5 [])
          else ("Finished").toList)
      else []
    let driver_id := match get_driver_by_name db driver_name with
      | some r => r.driver_id
      | none => 0
    let team_id := match get_team_by_name db team_name with
      | some r => r.team_id
      | none => 0
    if driver_id ≠ 0 ∧ team_id ≠ 0 then
      some ⟨driver_id, team_id, position, points, time, status⟩
    else none
  else none

/-- Embedding of `_scrape_single_race_results` from the located results
table on: skip the header row (`rows[1:]`), process each remaining row,
collect the emitted results.  The store is read, never written. -/
def scrape_single_race_results (db : DB) (rows : List (List (List Char))) :
    List RaceResult :=
  (rows.drop 1).filterMap (processResultRow db)

/-! ### Driver standings builder (src/src/scrapers/drivers_scraper.py) -/

/-- One entry of the standings dictionary built by
`scrape_driver_standings`. -/
structure StandingsItem where
  position : Nat
  driver_name : List Char
  points : Nat
  season : Nat
deriving DecidableEq

/-- Embedding of the per-row body of `scrape_driver_standings`: rows
with fewer than three cells are skipped; position from cell 0 (0 when
unparseable), driver name from cell 1, points from the last cell. -/
def standingsRow (season : Nat) (cells : List (List Char)) : Option StandingsItem :=
  if 3 ≤ cells.length then
    some ⟨(parse_number (cells.getD 0 [])).getD 0,
      clean_text (cells.getD 1 []),
      (parse_number ((cells.getLast?).getD [])).getD 0, season⟩
  else none

/-- Embedding of the table loop of `scrape_driver_standings`: skip the
header row, process the rest. -/
def scrape_driver_standings (season : Nat) (rows : List (List (List Char))) :
    List StandingsItem :=
  (rows.drop 1).filterMap (standingsRow season)

/-! ### Claim C5: referential integrity at build time -/

/-- C5: a RaceResult is emitted only when both the driver and the team
name resolve to existing store rows with non-zero ids; a row whose
driver (or team) name has no matching row yields nothing, so unresolved
references are dropped and never carried with null or garbage keys.
The builder only reads the store, so no race-results row count can
change. -/
theorem raceresult_requires_fk (db : DB) (cells : List (List Char)) :
    (get_driver_by_name db (clean_text (cells.getD 1 [])) = none →
      processResultRow db cells = none) ∧
    (get_team_by_name db (clean_text (cells.getD 2 [])) = none →
      processResultRow db cells = none) ∧
    (∀ res, processResultRow db cells = some res →
      res.driver_id ≠ 0 ∧ res.team_id ≠ 0 ∧
      (∃ r ∈ db.drivers.rows, r.name = clean_text (cells.getD 1 []) ∧
        res.driver_id = r.driver_id) ∧
      (∃ r ∈ db.teams.rows, r.name = clean_text (cells.getD 2 []) ∧
        res.team_id = r.team_id)) := by
  by_cases hlen : 5 ≤ cells.length
  · refine ⟨?_, ?_, ?_⟩
    · intro h
      unfold processResultRow
      rw [if_pos hlen]
      simp only [h]
      exact if_neg (fun hc' => hc'.1 rfl)
    · intro h
      unfold processResultRow
      rw [if_pos hlen]
      simp only [h]
      exact if_neg (fun hc' => hc'.2 rfl)
    · intro res hres
      unfold processResultRow at hres
      rw [if_pos hlen] at hres
      cases hd : get_driver_by_name db (clean_text (cells.getD 1 [])) with
      | none =>
        simp only [hd] at hres
        rw [if_neg (fun hc' => hc'.1 rfl)] at hres
        exact Option.noConfusion hres
      | some dr =>
        cases htm : get_team_by_name db (clean_text (cells.getD 2 [])) with
        | none =>
          simp only [hd, htm] at hres
          rw [if_neg (fun hc' => hc'.2 rfl)] at hres
          exact Option.noConfusion hres
        | some tr =>
          simp only [hd, htm] at hres
          by_cases hc : dr.driver_id ≠ 0 ∧ tr.team_id ≠ 0
          · rw [if_pos hc] at hres
            have hres' := Option.some.inj hres
            subst hres'
            have hdrname : dr.name = clean_text (cells.getD 1 []) := by
              have := List.find?_some hd
              simpa using this
            have htrname : tr.name = clean_text (cells.getD 2 []) := by
              have := List.find?_some htm
              simpa using this
            exact ⟨hc.1, hc.2,
              ⟨dr, List.mem_of_find?_eq_some hd, hdrname, rfl⟩,
              ⟨tr, List.mem_of_find?_eq_some htm, htrname, rfl⟩⟩
          · rw [if_neg hc] at hres
            exact Option.noConfusion hres
  · have hnone : processResultRow db cells = none := by
      unfold processResultRow
      rw [if_neg hlen]
    refine ⟨fun _ => hnone, fun _ => hnone, ?_⟩
    intro res hres
    rw [hnone] at hres
    exact Option.noConfusion hres

/-- Witness for C5: against a store that lacks the driver, a well-formed
five-cell row yields no RaceResult. -/
theorem raceresult_requires_fk_witness :
    processResultRow ⟨⟨[], 1⟩, ⟨[⟨1, ("Red Team").toList, 0, 0, 0⟩], 2⟩⟩
      [("1").toList, ("Max Driver").toList, ("Red Team").toList,
        ("t").toList, ("25").toList] = none := by
  exact (raceresult_requires_fk ⟨⟨[], 1⟩, ⟨[⟨1, ("Red Team").toList, 0, 0, 0⟩], 2⟩⟩
    [("1").toList, ("Max Driver").toList, ("Red Team").toList,
      ("t").toList, ("25").toList]).1 (by decide)

/-! ### Claim C6: header and malformed rows are skipped -/

/-- C6: both tabular builders ignore the header row entirely (its
content never influences the output), and a data row below the minimum
cell count (three for standings, five for race results) contributes
nothing while the surrounding well-formed rows are still processed. -/
theorem malformed_rows_skipped (db : DB) (season : Nat)
    (hdr hdr' bad : List (List Char)) (rows1 rows2 : List (List (List Char))) :
    (scrape_driver_standings season (hdr :: rows1) =
      scrape_driver_standings season (hdr' :: rows1)) ∧
    (scrape_single_race_results db (hdr :: rows1) =
      scrape_single_race_results db (hdr' :: rows1)) ∧
    (bad.length < 3 →
      scrape_driver_standings season (hdr :: (rows1 ++ bad :: rows2)) =
        scrape_driver_standings season (hdr :: (rows1 ++ rows2))) ∧
    (bad.length < 5 →
      scrape_single_race_results db (hdr :: (rows1 ++ bad :: rows2)) =
        scrape_single_race_results db (hdr :: (rows1 ++ rows2))) := by
  refine ⟨rfl, rfl, ?_, ?_⟩
  · intro hb
    have hb0 : standingsRow season bad = none := by
      unfold standingsRow
      rw [if_neg (by omega)]
    show (rows1 ++ bad :: rows2).filterMap (standingsRow season) =
      (rows1 ++ rows2).filterMap (standingsRow season)
    simp [List.filterMap_append, List.filterMap_cons, hb0]
  · intro hb
    have hb0 : processResultRow db bad = none := by
      unfold processResultRow
      rw [if_neg (by omega)]
    show (rows1 ++ bad :: rows2).filterMap (processResultRow db) =
      (rows1 ++ rows2).filterMap (processResultRow db)
    simp [List.filterMap_append, List.filterMap_cons, hb0]

/-- Witness for C6: a two-cell row between two header variants is
dropped from both builders' outputs. -/
theorem malformed_rows_skipped_witness :
    scrape_driver_standings 2024
        [[("Pos").toList], [("x").toList, ("y").toList]] =
      scrape_driver_standings 2024 [[("Pos").toList]] ∧
    scrape_single_race_results ⟨⟨[], 1⟩, ⟨[], 1⟩⟩
        [[("Pos").toList], [("x").toList, ("y").toList]] =
      scrape_single_race_results ⟨⟨[], 1⟩, ⟨[], 1⟩⟩ [[("Pos").toList]] := by
  constructor
  · exact (malformed_rows_skipped ⟨⟨[], 1⟩, ⟨[], 1⟩⟩ 2024 [("Pos").toList]
      [("Pos").toList] [("x").toList, ("y").toList] [] []).2.2.1 (by decide)
  · exact (malformed_rows_skipped ⟨⟨[], 1⟩, ⟨[], 1⟩⟩ 2024 [("Pos").toList]
      [("Pos").toList] [("x").toList, ("y").toList] [] []).2.2.2 (by decide)

/-! ### Claim C1: end-to-end season-results scenario -/

/-- The pre-seeded store of the end-to-end scenario: Driver "Max
Driver" with surrogate id 1 and Team "Red Team" with surrogate id 1. -/
def seededDB : DB :=
  ⟨⟨[⟨1, ("Max Driver").toList, [], [], 0, 0, 0⟩], 2⟩,
    ⟨[⟨1, ("Red Team").toList, 0, 0, 0⟩], 2⟩⟩

/-- The scenario table of the claim: header row Pos, Driver, Team, Pts
and the single four-cell data row 1, Max Driver, Red Team, 25. -/
def c1Table : List (List (List Char)) :=
  [[("Pos").toList, ("Driver").toList, ("Team").toList, ("Pts").toList],
    [("1").toList, ("Max Driver").toList, ("Red Team").toList, ("25").toList]]

/-- The scenario table with a fifth (time) column so that the data row
meets the five-cell minimum of the results builder. -/
def c1TableFive : List (List (List Char)) :=
  [[("Pos").toList, ("Driver").toList, ("Team").toList,
      ("Time").toList, ("Pts").toList],
    [("1").toList, ("Max Driver").toList, ("Red Team").toList,
      ("1:30.000").toList, ("25").toList]]

/-- C1 counterexample: on the exact table of the claim the pipeline
produces no result at all, because the four-cell data row is below the
five-cell minimum of `_scrape_single_race_results`; in particular no
race-results row could be persisted (the schema of `_create_tables`
has no `race_results` table and the scraper performs no insert). -/
theorem season_results_counterexample :
    scrape_single_race_results seededDB c1Table = [] := by decide

/-- C1 amended: with the data row widened to five cells, the pipeline
emits exactly one RaceResult, with position 1, points 25 (taken from
the last cell), and driver and team ids equal to the pre-seeded rows'
surrogate ids; the record is returned to the caller, not persisted. -/
theorem season_results_amended :
    scrape_single_race_results seededDB c1TableFive =
      [⟨1, 1, some 1, 25, none, []⟩] ∧
    (∃ r ∈ seededDB.drivers.rows, r.driver_id = 1 ∧
      r.name = ("Max Driver").toList) ∧
    (∃ r ∈ seededDB.teams.rows, r.team_id = 1 ∧
      r.name = ("Red Team").toList) := by decide
